import Mathlib

/-!
Verification development for the repository `llm_finetuning`
(notebook `02_dpo_ft_lora_4bit_quant_llm/train.ipynb`): a shallow
embedding of the notebook's configuration cells and of the core engine
the notebook orchestrates (block-wise 4-bit quantization, low-rank
adapters, the DPO preference loss, tokenizer padding and prompt
truncation), together with theorems settling the specified properties.
-/

namespace DPONotebook

/-! ### Python call-argument syntax (for the `DPOConfig(...)` cell)

The notebook builds its training configuration with a single Python call
`DPOConfig(kw1=v1, kw2=v2, ...)`.  Python's grammar for a call's argument
list requires a comma between consecutive keyword arguments; a missing
comma is a `SyntaxError` raised at parse time, before any statement of
the cell executes.  We embed the token stream of that argument list and
a recognizer for Python's keyword-argument-list grammar. -/

/-- A literal value appearing as a keyword-argument value in the notebook's
`DPOConfig(...)` call: a string, a number (ints and floats as exact
rationals), a boolean, or a list of strings. -/
inductive PyVal where
  | pstr (s : String)
  | pnum (q : ℚ)
  | pbool (b : Bool)
  | pstrs (l : List String)
  deriving DecidableEq, Repr

/-- Tokens of a Python call argument list: an identifier, `=`, `,`, or a
literal value. -/
inductive PyTok where
  | pname (s : String)
  | peq
  | pcomma
  | plit (v : PyVal)
  deriving DecidableEq, Repr

/-- Recognizer for Python's keyword-argument-list grammar
`[kwarg ("," kwarg)* [","]]` with `kwarg := NAME "=" literal`.
Returns the parsed `name ↦ value` list, or `none` on a syntax error
(in CPython a `SyntaxError` is raised and the enclosing cell never runs). -/
def parseKwargs : List PyTok → Option (List (String × PyVal))
  | [] => some []
  | [.pname n, .peq, .plit v] => some [(n, v)]
  | .pname n :: .peq :: .plit v :: .pcomma :: rest =>
      (parseKwargs rest).map (fun l => (n, v) :: l)
  | _ => none

/-- Outcome of executing the configuration-and-training cell: Python
parses the whole cell first, so a malformed argument list aborts with a
`SyntaxError` before the `DPOConfig` object is built and before
`DPOTrainer(...)`/`dpo_trainer.train()` run. -/
def configCellOutcome (toks : List PyTok) : Except String (List (String × PyVal)) :=
  match parseKwargs toks with
  | none => Except.error "SyntaxError"
  | some kws => Except.ok kws

/-- Number of training steps the configuration cell can start: zero when
the cell fails to parse (training never begins), and only in the
successfully-parsed case does control ever reach `dpo_trainer.train()`. -/
def trainingStepsStarted (toks : List PyTok) (stepsIfRun : ℕ) : ℕ :=
  match configCellOutcome toks with
  | Except.error _ => 0
  | Except.ok _ => stepsIfRun

set_option maxHeartbeats 1600000 in
/-- The token stream of the argument list of the notebook's `DPOConfig(...)`
call, transcribed from the source.  Note the missing `,` between
`per_device_train_batch_size=2` and `gradient_accumulation_steps=4`,
exactly as in the notebook. -/
def dpoConfigArgTokens : List PyTok :=
  [.pname "output_dir", .peq, .plit (.pstr "./phi3_dpo_results"), .pcomma,
   .pname "num_train_epochs", .peq, .plit (.pnum 5), .pcomma,
   .pname "beta", .peq, .plit (.pnum (1/10)), .pcomma,
   .pname "loss_type", .peq, .plit (.pstr "sigmoid"), .pcomma,
   .pname "optim", .peq, .plit (.pstr "paged_adamw_8bit"), .pcomma,
   .pname "max_prompt_length", .peq, .plit (.pnum 512), .pcomma,
   .pname "max_completion_length", .peq, .plit (.pnum 1024), .pcomma,
   .pname "max_length", .peq, .plit (.pnum 2048), .pcomma,
   .pname "per_device_train_batch_size", .peq, .plit (.pnum 2),
   .pname "gradient_accumulation_steps", .peq, .plit (.pnum 4), .pcomma,
   .pname "gradient_checkpointing", .peq, .plit (.pbool true), .pcomma,
   .pname "learning_rate", .peq, .plit (.pnum (2/100000)), .pcomma,
   .pname "lr_scheduler_type", .peq, .plit (.pstr "cosine"), .pcomma,
   .pname "max_steps", .peq, .plit (.pnum (-1)), .pcomma,
   .pname "logging_steps", .peq, .plit (.pnum 1), .pcomma,
   .pname "save_steps", .peq, .plit (.pnum 500), .pcomma,
   .pname "warmup_ratio", .peq, .plit (.pnum (1/10)), .pcomma,
   .pname "fp16", .peq, .plit (.pbool true), .pcomma,
   .pname "report_to", .peq, .plit (.pstrs ["tensorboard"]), .pcomma,
   .pname "logging_dir", .peq, .plit (.pstr "./logs"), .pcomma,
   .pname "remove_unused_columns", .peq, .plit (.pbool false), .pcomma,
   .pname "push_to_hub", .peq, .plit (.pbool false)]

set_option maxHeartbeats 1600000 in
/-- The same argument list with the one missing comma restored (not what
the source contains; used only to show the recognizer accepts a
well-formed list and so does not reject vacuously). -/
def dpoConfigArgTokensRepaired : List PyTok :=
  [.pname "output_dir", .peq, .plit (.pstr "./phi3_dpo_results"), .pcomma,
   .pname "num_train_epochs", .peq, .plit (.pnum 5), .pcomma,
   .pname "beta", .peq, .plit (.pnum (1/10)), .pcomma,
   .pname "loss_type", .peq, .plit (.pstr "sigmoid"), .pcomma,
   .pname "optim", .peq, .plit (.pstr "paged_adamw_8bit"), .pcomma,
   .pname "max_prompt_length", .peq, .plit (.pnum 512), .pcomma,
   .pname "max_completion_length", .peq, .plit (.pnum 1024), .pcomma,
   .pname "max_length", .peq, .plit (.pnum 2048), .pcomma,
   .pname "per_device_train_batch_size", .peq, .plit (.pnum 2), .pcomma,
   .pname "gradient_accumulation_steps", .peq, .plit (.pnum 4), .pcomma,
   .pname "gradient_checkpointing", .peq, .plit (.pbool true), .pcomma,
   .pname "learning_rate", .peq, .plit (.pnum (2/100000)), .pcomma,
   .pname "lr_scheduler_type", .peq, .plit (.pstr "cosine"), .pcomma,
   .pname "max_steps", .peq, .plit (.pnum (-1)), .pcomma,
   .pname "logging_steps", .peq, .plit (.pnum 1), .pcomma,
   .pname "save_steps", .peq, .plit (.pnum 500), .pcomma,
   .pname "warmup_ratio", .peq, .plit (.pnum (1/10)), .pcomma,
   .pname "fp16", .peq, .plit (.pbool true), .pcomma,
   .pname "report_to", .peq, .plit (.pstrs ["tensorboard"]), .pcomma,
   .pname "logging_dir", .peq, .plit (.pstr "./logs"), .pcomma,
   .pname "remove_unused_columns", .peq, .plit (.pbool false), .pcomma,
   .pname "push_to_hub", .peq, .plit (.pbool false)]

/-! ### Low-rank adapter forward (peft_config / get_peft_model) -/

/-- Forward pass of the unadapted (dequantized 4-bit) base linear
transform `W` on input `x`. -/
def baseForward {m n : ℕ} (W : Matrix (Fin m) (Fin n) ℚ) (x : Fin n → ℚ) :
    Fin m → ℚ :=
  W.mulVec x

/-- Forward pass of a frozen linear transform `W` wrapped with a low-rank
adapter: `W·x + scale · B·(A·(drop x))`, where `drop` is the input dropout
map (the identity outside training).  `A` and `B` are the adapter's
trainable matrices and `scale = lora_alpha / r`. -/
def loraForward {m n r : ℕ} (W : Matrix (Fin m) (Fin n) ℚ)
    (A : Matrix (Fin r) (Fin n) ℚ) (B : Matrix (Fin m) (Fin r) ℚ)
    (scale : ℚ) (drop : (Fin n → ℚ) → Fin n → ℚ) (x : Fin n → ℚ) :
    Fin m → ℚ :=
  W.mulVec x + scale • B.mulVec (A.mulVec (drop x))

/-- `lora_alpha` from the notebook's `LoraConfig` (line `lora_alpha=16`). -/
def loraAlpha : ℚ := 16

/-- Adapter rank `r` from the notebook's `LoraConfig` (line `r = 64`). -/
def loraRank : ℕ := 64

/-- The adapter scale `alpha / r` induced by the notebook's `LoraConfig`. -/
def loraScale : ℚ := loraAlpha / loraRank

/-! ### Preference loss engine and reference-model mode

The loss engine is implemented inside the `trl` library (not in this
repository's sources); following the spec it is modelled here with
token-scoring functions `List ℕ → ℕ → ℚ` (a per-token score given the
running prefix). -/

/-- Modelled from the spec: the reference-model mode of the Preference
Loss Engine (the engine itself lives in the `trl` library, outside this
repository's sources).  Per §4.4/§9 the choice between an explicit
reference model and "the policy with adapters disabled" is an explicit
tagged mode. -/
inductive ReferenceMode where
  | explicitReferenceModel (ref : List ℕ → ℕ → ℚ)
  | implicitBaseAsReference

/-- The trainer state relevant to reference scoring: the policy's frozen
base scorer, the adapter's additive correction, and the tagged
reference mode. -/
structure PreferenceTrainer where
  policyBase : List ℕ → ℕ → ℚ
  policyDelta : List ℕ → ℕ → ℚ
  mode : ReferenceMode

/-- Modelled from the spec: trainer construction (the notebook's
`DPOTrainer(model=model, ref_model=None, ..., peft_config=peft_config)`).
The reference mode is fixed here, at construction, from the `ref_model`
argument: `None` selects `implicitBaseAsReference`; the adapter
correction `policyDelta` is attached by the trainer itself (it receives
`peft_config`). -/
def mkDPOTrainer (policyBase policyDelta : List ℕ → ℕ → ℚ)
    (refModel : Option (List ℕ → ℕ → ℚ)) : PreferenceTrainer :=
  { policyBase := policyBase
    policyDelta := policyDelta
    mode :=
      match refModel with
      | some ref => ReferenceMode.explicitReferenceModel ref
      | none => ReferenceMode.implicitBaseAsReference }

/-- Policy forward: base plus adapter correction. -/
def policyScore (t : PreferenceTrainer) (ctx : List ℕ) (tok : ℕ) : ℚ :=
  t.policyBase ctx tok + t.policyDelta ctx tok

/-- Adapter-disabled forward of the same policy weights: just the frozen
base. -/
def adapterDisabledScore (t : PreferenceTrainer) (ctx : List ℕ) (tok : ℕ) : ℚ :=
  t.policyBase ctx tok

/-- Modelled from the spec: the reference forward used by the loss
engine, dispatched on the tagged mode fixed at construction (the loss
computation never inspects an optional reference value). -/
def referenceScore (t : PreferenceTrainer) (ctx : List ℕ) (tok : ℕ) : ℚ :=
  match t.mode with
  | ReferenceMode.explicitReferenceModel ref => ref ctx tok
  | ReferenceMode.implicitBaseAsReference => t.policyBase ctx tok

/-- The `ref_model=None` argument of the notebook's `DPOTrainer(...)`
call. -/
def notebookRefModelArg : Option (List ℕ → ℕ → ℚ) := none

/-! ### Gradient isolation (frozen quantized base vs adapters)

The backward pass and optimizer live in `torch`/`peft` (outside this
repository's sources); they are modelled from the spec. -/

/-- The three parameter groups of the trained model: the 4-bit quantized
base weights and the adapter's A and B matrices. -/
inductive ModelParam where
  | baseWeights
  | adapterA
  | adapterB
  deriving DecidableEq

/-- Modelled from the spec: trainability of each parameter group — the
quantized base is frozen (never a trainable parameter), only the adapter
matrices are trainable. -/
def requiresGrad : ModelParam → Bool
  | ModelParam.baseWeights => false
  | ModelParam.adapterA => true
  | ModelParam.adapterB => true

/-- Modelled from the spec: the gradient buffer left by a backward pass.
A buffer is attached exactly to trainable parameters; the frozen base
receives `none`.  `rawGrad` stands for the (opaque) gradient values the
chain rule produces. -/
def backwardGradBuffer (rawGrad : ModelParam → List ℚ) (p : ModelParam) :
    Option (List ℚ) :=
  if requiresGrad p then some (rawGrad p) else none

/-- Parameter values of the trained model, one flat list per group. -/
structure AdapterTrainState where
  baseWeights : List ℚ
  adapterA : List ℚ
  adapterB : List ℚ

/-- Apply an optimizer update to one parameter group's values from its
gradient buffer; a parameter with no gradient buffer is left untouched. -/
def applyGradUpdate (lr : ℚ) (v : List ℚ) : Option (List ℚ) → List ℚ
  | none => v
  | some g => List.zipWith (fun w d => w - lr * d) v g

/-- Modelled from the spec: one backward-pass-plus-optimizer step of the
training loop. -/
def optimizerStep (lr : ℚ) (rawGrad : ModelParam → List ℚ)
    (s : AdapterTrainState) : AdapterTrainState :=
  { baseWeights :=
      applyGradUpdate lr s.baseWeights (backwardGradBuffer rawGrad ModelParam.baseWeights)
    adapterA :=
      applyGradUpdate lr s.adapterA (backwardGradBuffer rawGrad ModelParam.adapterA)
    adapterB :=
      applyGradUpdate lr s.adapterB (backwardGradBuffer rawGrad ModelParam.adapterB) }

/-- A training run of `n` optimizer steps with per-step gradients
`grads`. -/
def trainRun (lr : ℚ) (grads : ℕ → ModelParam → List ℚ) :
    ℕ → AdapterTrainState → AdapterTrainState
  | 0, s => s
  | n + 1, s => trainRun lr grads n (optimizerStep lr (grads n) s)

/-! ### Sequence log-probabilities and the sigmoid DPO loss -/

/-- The logistic sigmoid. -/
noncomputable def sigmoid (x : ℝ) : ℝ := (1 + Real.exp (-x))⁻¹

/-- Modelled from the spec: the sigmoid-variant DPO loss selected by the
notebook's `loss_type="sigmoid"`:
`-log(sigmoid(beta * (policy_logratio − reference_logratio)))`. -/
noncomputable def dpoSigmoidLoss (beta policyLogratio referenceLogratio : ℝ) : ℝ :=
  -Real.log (sigmoid (beta * (policyLogratio - referenceLogratio)))

/-- Modelled from the spec: per-example sequence log-probability — the
sum, in log-space, of per-token log-probabilities of the completion
tokens given the growing prefix. -/
noncomputable def seqLogProb (score : List ℕ → ℕ → ℝ) :
    List ℕ → List ℕ → ℝ
  | _, [] => 0
  | pre, tok :: rest => score pre tok + seqLogProb score (pre ++ [tok]) rest

/-- Modelled from the spec: a model's log-ratio for one preference
example: `log P(chosen | prompt) − log P(rejected | prompt)`. -/
noncomputable def logratio (score : List ℕ → ℕ → ℝ)
    (prompt chosen rejected : List ℕ) : ℝ :=
  seqLogProb score prompt chosen - seqLogProb score prompt rejected

/-! ### Prompt/completion truncation -/

/-- Modelled from the spec: prompt truncation keeps the final `maxLen`
tokens — truncation from the start, preserving the most recent context
(`max_prompt_length=512` in the notebook's `DPOConfig`). -/
def truncatePromptToks (maxLen : ℕ) (toks : List ℕ) : List ℕ :=
  toks.drop (toks.length - maxLen)

/-- Modelled from the spec: completion truncation keeps the first
`maxLen` tokens — truncation from the end
(`max_completion_length=1024` in the notebook's `DPOConfig`). -/
def truncateCompletionToks (maxLen : ℕ) (toks : List ℕ) : List ℕ :=
  toks.take maxLen

/-! ### Block-wise 4-bit quantization (bnb_config)

The quantizer itself lives in the `bitsandbytes` library (selected by
`load_in_4bit=True`, `bnb_4bit_quant_type="nf4"`); following the spec it
is modelled as per-block absmax scaling with nearest-entry rounding into
the NF4 codebook. -/

/-- The 16-entry NF4 codebook used by `bnb_4bit_quant_type="nf4"`, as
exact rationals; it spans `[-1, 1]` and contains `-1`, `0` and `1`. -/
def nf4Codebook : List ℚ :=
  [-1,
   -6961928009986877 / 10000000000000000,
   -5250730514526367 / 10000000000000000,
   -39491748809814453 / 100000000000000000,
   -28444138169288635 / 100000000000000000,
   -18477343022823334 / 100000000000000000,
   -9105003625154495 / 100000000000000000,
   0,
   7958029955625534 / 100000000000000000,
   15955352783203125 / 100000000000000000,
   24611230194568634 / 100000000000000000,
   33791524171829224 / 100000000000000000,
   44070982933044434 / 100000000000000000,
   5626170039176941 / 10000000000000000,
   7229568362236023 / 10000000000000000,
   1]

/-- Round a normalized value to the nearest NF4 codebook entry (the
first nearest one when tied). -/
def nearestCode (y : ℚ) : ℚ :=
  nf4Codebook.foldl (fun b c => if |y - c| < |y - b| then c else b) (-1)

/-- Maximum absolute value of a block (the per-block scale of absmax
quantization; the NF4 codebook's maximum representable magnitude is 1). -/
def absmax (l : List ℚ) : ℚ := l.foldr (fun x m => max |x| m) 0

/-- Divide by the block scale; a scale of zero (an all-zero block) maps
everything to the zero code. -/
def normalizeBy (s x : ℚ) : ℚ := if s = 0 then 0 else x / s

/-- Modelled from the spec: quantization of one block — the absmax
scale together with each element's nearest codebook entry after
normalization. -/
def quantizeBlock (l : List ℚ) : ℚ × List ℚ :=
  (absmax l, l.map (fun x => nearestCode (normalizeBy (absmax l) x)))

/-- Dequantization of one block: each code times the block scale. -/
def dequantizeBlock (q : ℚ × List ℚ) : List ℚ :=
  q.2.map (fun c => q.1 * c)

/-- Partition a flattened tensor into contiguous blocks of `k + 1`
elements; a trailing partial block is kept, never dropped. -/
def chunkAux (k : ℕ) : List ℚ → List (List ℚ)
  | [] => []
  | x :: xs => (x :: xs.take k) :: chunkAux k (xs.drop k)
termination_by l => l.length
decreasing_by simp only [List.length_drop, List.length_cons]; omega

/-- Modelled from the spec: tensor quantization — partition into blocks
of `blockSize` elements and quantize each block independently. -/
def quantize (blockSize : ℕ) (T : List ℚ) : List (ℚ × List ℚ) :=
  (chunkAux (blockSize - 1) T).map quantizeBlock

/-- Tensor dequantization: dequantize each block and concatenate. -/
def dequantize (qs : List (ℚ × List ℚ)) : List ℚ :=
  (qs.map dequantizeBlock).flatten

/-- The quantization round trip on a flattened tensor. -/
def roundTrip (blockSize : ℕ) (T : List ℚ) : List ℚ :=
  dequantize (quantize blockSize T)

/-- Infinity norm of the elementwise difference of two aligned tensors. -/
def errInf (a b : List ℚ) : ℚ :=
  (List.zipWith (fun x y => |x - y|) a b).foldr max 0

/-- A block is representable by the codebook when every element is its
block scale times some codebook entry. -/
def blockRepresentable (l : List ℚ) : Prop :=
  ∀ x ∈ l, ∃ c ∈ nf4Codebook, x = absmax l * c

/-! ### Quantization helper lemmas -/

lemma chunkAux_nil (k : ℕ) : chunkAux k [] = [] := by
  simp [chunkAux]

lemma chunkAux_cons (k : ℕ) (x : ℚ) (xs : List ℚ) :
    chunkAux k (x :: xs) = (x :: xs.take k) :: chunkAux k (xs.drop k) := by
  rw [chunkAux]

lemma foldr_max_nonneg (xs : List ℚ) : 0 ≤ xs.foldr max 0 := by
  induction xs with
  | nil => exact le_refl 0
  | cons x xs ih => exact le_trans ih (le_max_right _ _)

lemma errInf_nonneg (a b : List ℚ) : 0 ≤ errInf a b :=
  foldr_max_nonneg _

lemma le_foldr_max (x : ℚ) (xs : List ℚ) (hx : x ∈ xs) :
    x ≤ xs.foldr max 0 := by
  induction xs with
  | nil => cases hx
  | cons a as ih =>
      rcases List.mem_cons.mp hx with rfl | h
      · exact le_max_left _ _
      · exact le_trans (ih h) (le_max_right _ _)

lemma absmax_cons (x : ℚ) (xs : List ℚ) :
    absmax (x :: xs) = max |x| (absmax xs) := rfl

lemma absmax_nonneg (l : List ℚ) : 0 ≤ absmax l := by
  induction l with
  | nil => exact le_refl 0
  | cons x xs ih =>
      rw [absmax_cons]
      exact le_trans ih (le_max_right _ _)

lemma le_absmax_of_mem {x : ℚ} {l : List ℚ} (hx : x ∈ l) : |x| ≤ absmax l := by
  induction l with
  | nil => cases hx
  | cons a as ih =>
      rw [absmax_cons]
      rcases List.mem_cons.mp hx with rfl | h
      · exact le_max_left _ _
      · exact le_trans (ih h) (le_max_right _ _)

lemma absmax_le_absmax {l₁ l₂ : List ℚ} (h : ∀ x ∈ l₁, x ∈ l₂) :
    absmax l₁ ≤ absmax l₂ := by
  induction l₁ with
  | nil => exact absmax_nonneg l₂
  | cons a as ih =>
      rw [absmax_cons]
      exact max_le (le_absmax_of_mem (h a (List.mem_cons_self a as)))
        (ih fun x hx => h x (List.mem_cons_of_mem a hx))

lemma foldl_pick_mem (y : ℚ) :
    ∀ (cs : List ℚ) (b : ℚ),
      cs.foldl (fun b c => if |y - c| < |y - b| then c else b) b = b ∨
      cs.foldl (fun b c => if |y - c| < |y - b| then c else b) b ∈ cs := by
  intro cs
  induction cs with
  | nil => intro b; left; rfl
  | cons c cs ih =>
      intro b
      rw [List.foldl_cons]
      by_cases h : |y - c| < |y - b|
      · rw [if_pos h]
        rcases ih c with h' | h'
        · right; rw [h']; exact List.mem_cons_self _ _
        · right; exact List.mem_cons_of_mem _ h'
      · rw [if_neg h]
        rcases ih b with h' | h'
        · left; exact h'
        · right; exact List.mem_cons_of_mem _ h'

lemma nearestCode_mem (y : ℚ) : nearestCode y ∈ nf4Codebook := by
  rcases foldl_pick_mem y nf4Codebook (-1) with h | h
  · rw [nearestCode, h]; norm_num [nf4Codebook]
  · exact h

lemma foldl_pick_le (y : ℚ) :
    ∀ (cs : List ℚ) (b : ℚ),
      |y - cs.foldl (fun b c => if |y - c| < |y - b| then c else b) b| ≤ |y - b| ∧
      ∀ c ∈ cs,
        |y - cs.foldl (fun b c => if |y - c| < |y - b| then c else b) b| ≤ |y - c| := by
  intro cs
  induction cs with
  | nil =>
      intro b
      exact ⟨le_refl _, by intro c hc; cases hc⟩
  | cons c cs ih =>
      intro b
      rw [List.foldl_cons]
      by_cases h : |y - c| < |y - b|
      · rw [if_pos h]
        obtain ⟨ih1, ih2⟩ := ih c
        refine ⟨ih1.trans (le_of_lt h), ?_⟩
        intro c' hc'
        rcases List.mem_cons.mp hc' with rfl | h'
        · exact ih1
        · exact ih2 _ h'
      · rw [if_neg h]
        obtain ⟨ih1, ih2⟩ := ih b
        refine ⟨ih1, ?_⟩
        intro c' hc'
        rcases List.mem_cons.mp hc' with rfl | h'
        · exact ih1.trans (not_lt.mp h)
        · exact ih2 _ h'

lemma nearestCode_le (y : ℚ) {c : ℚ} (hc : c ∈ nf4Codebook) :
    |y - nearestCode y| ≤ |y - c| :=
  (foldl_pick_le y nf4Codebook (-1)).2 c hc

lemma nearestCode_self {c : ℚ} (hc : c ∈ nf4Codebook) : nearestCode c = c := by
  have h := nearestCode_le c hc
  rw [sub_self, abs_zero] at h
  have h0 : |c - nearestCode c| = 0 := le_antisymm h (abs_nonneg _)
  have := abs_eq_zero.mp h0
  linarith [sub_eq_zero.mp this]

lemma nearestCode_dist_le_half (y : ℚ) (hy : |y| ≤ 1) :
    |y - nearestCode y| ≤ 1 / 2 := by
  obtain ⟨hy1, hy2⟩ := abs_le.mp hy
  rcases le_or_lt y (-(1 / 2)) with h | h
  · have hm1 : (-1 : ℚ) ∈ nf4Codebook := by norm_num [nf4Codebook]
    refine (nearestCode_le y hm1).trans ?_
    rw [abs_of_nonneg (by linarith : (0 : ℚ) ≤ y - -1)]
    linarith
  · rcases le_or_lt y (1 / 2) with h2 | h2
    · have h0 : (0 : ℚ) ∈ nf4Codebook := by norm_num [nf4Codebook]
      refine (nearestCode_le y h0).trans ?_
      rw [sub_zero]
      exact abs_le.mpr ⟨by linarith, h2⟩
    · have h1 : (1 : ℚ) ∈ nf4Codebook := by norm_num [nf4Codebook]
      refine (nearestCode_le y h1).trans ?_
      rw [abs_of_nonpos (by linarith : y - 1 ≤ 0)]
      linarith

lemma block_err_elem (l : List ℚ) {x : ℚ} (hx : x ∈ l) :
    |x - absmax l * nearestCode (normalizeBy (absmax l) x)| ≤
      absmax l * (1 / 2) := by
  by_cases hs : absmax l = 0
  · have hx0 : x = 0 := by
      have := le_absmax_of_mem hx
      rw [hs] at this
      exact abs_eq_zero.mp (le_antisymm this (abs_nonneg _))
    rw [hs, zero_mul, zero_mul, hx0, sub_zero, abs_zero]
  · have hspos : 0 < absmax l := lt_of_le_of_ne (absmax_nonneg l) (Ne.symm hs)
    have hnorm : normalizeBy (absmax l) x = x / absmax l := if_neg hs
    have hy : |x / absmax l| ≤ 1 := by
      rw [abs_div, abs_of_pos hspos]
      exact (div_le_one hspos).mpr (le_absmax_of_mem hx)
    have hkey : x - absmax l * nearestCode (x / absmax l) =
        absmax l * (x / absmax l - nearestCode (x / absmax l)) := by
      field_simp
    rw [hnorm, hkey, abs_mul, abs_of_pos hspos]
    exact mul_le_mul_of_nonneg_left (nearestCode_dist_le_half _ hy)
      (le_of_lt hspos)

lemma block_roundtrip_form (l : List ℚ) :
    dequantizeBlock (quantizeBlock l) =
      l.map (fun x => absmax l * nearestCode (normalizeBy (absmax l) x)) := by
  simp only [quantizeBlock, dequantizeBlock, List.map_map]
  rfl

lemma block_roundtrip_err (l : List ℚ) :
    List.Forall₂ (fun x y => |x - y| ≤ absmax l * (1 / 2)) l
      (dequantizeBlock (quantizeBlock l)) := by
  rw [block_roundtrip_form]
  rw [List.forall₂_map_right_iff]
  rw [List.forall₂_same]
  intro x hx
  exact block_err_elem l hx

lemma errInf_le_of_forall₂ {c : ℚ} (hc : 0 ≤ c) :
    ∀ {a b : List ℚ}, List.Forall₂ (fun x y => |x - y| ≤ c) a b →
      errInf a b ≤ c := by
  intro a b h
  induction h with
  | nil => exact hc
  | cons hxy _ ih => exact max_le hxy ih

lemma chunk_err_aux (k : ℕ) (c : ℚ) :
    ∀ (n : ℕ) (T : List ℚ), T.length ≤ n → absmax T ≤ c →
      List.Forall₂ (fun x y => |x - y| ≤ c * (1 / 2)) T
        ((((chunkAux k T).map quantizeBlock).map dequantizeBlock).flatten) := by
  intro n
  induction n with
  | zero =>
      intro T hT _
      cases T with
      | nil => simp [chunkAux_nil]
      | cons x xs => simp at hT
  | succ n ih =>
      intro T hT hc
      cases T with
      | nil => simp [chunkAux_nil]
      | cons x xs =>
          rw [chunkAux_cons, List.map_cons, List.map_cons, List.flatten_cons]
          have hblock : List.Forall₂ (fun a b => |a - b| ≤ c * (1 / 2))
              (x :: xs.take k)
              (dequantizeBlock (quantizeBlock (x :: xs.take k))) := by
            refine (block_roundtrip_err (x :: xs.take k)).imp ?_
            intro a b hab
            refine hab.trans ?_
            have hsub : absmax (x :: xs.take k) ≤ absmax (x :: xs) := by
              apply absmax_le_absmax
              intro z hz
              rcases List.mem_cons.mp hz with rfl | hz'
              · exact List.mem_cons_self _ _
              · exact List.mem_cons_of_mem _ (List.take_subset k xs hz')
            exact mul_le_mul_of_nonneg_right (hsub.trans hc) (by norm_num)
          have hrest : List.Forall₂ (fun a b => |a - b| ≤ c * (1 / 2))
              (xs.drop k)
              ((((chunkAux k (xs.drop k)).map quantizeBlock).map
                dequantizeBlock).flatten) := by
            apply ih
            · rw [List.length_drop]
              simp only [List.length_cons] at hT
              omega
            · refine (absmax_le_absmax ?_).trans hc
              intro z hz
              exact List.mem_cons_of_mem _ (List.drop_subset k xs hz)
          have hall := List.rel_append hblock hrest
          simpa [List.cons_append, List.take_append_drop] using hall

lemma errInf_map_eq_zero_iff (g : ℚ → ℚ) (l : List ℚ) :
    errInf l (l.map g) = 0 ↔ ∀ x ∈ l, g x = x := by
  induction l with
  | nil => simp [errInf]
  | cons x xs ih =>
      have hunfold : errInf (x :: xs) ((x :: xs).map g) =
          max |x - g x| (errInf xs (xs.map g)) := rfl
      rw [hunfold]
      constructor
      · intro h
        have h1 : |x - g x| = 0 := by
          have hle : |x - g x| ≤ 0 := by
            calc |x - g x| ≤ max |x - g x| (errInf xs (xs.map g)) :=
                  le_max_left _ _
              _ = 0 := h
          exact le_antisymm hle (abs_nonneg _)
        have h2 : errInf xs (xs.map g) = 0 := by
          have hle : errInf xs (xs.map g) ≤ 0 := by
            calc errInf xs (xs.map g) ≤
                  max |x - g x| (errInf xs (xs.map g)) := le_max_right _ _
              _ = 0 := h
          exact le_antisymm hle (errInf_nonneg _ _)
        intro z hz
        rcases List.mem_cons.mp hz with rfl | hz'
        · have := sub_eq_zero.mp (abs_eq_zero.mp h1)
          linarith
        · exact (ih.mp h2) z hz'
      · intro h
        have hx : g x = x := h x (List.mem_cons_self x xs)
        have hxs : errInf xs (xs.map g) = 0 :=
          ih.mpr fun z hz => h z (List.mem_cons_of_mem _ hz)
        rw [hx, sub_self, abs_zero, hxs, max_self]

lemma block_zero_iff (l : List ℚ) :
    errInf l (dequantizeBlock (quantizeBlock l)) = 0 ↔ blockRepresentable l := by
  rw [block_roundtrip_form, errInf_map_eq_zero_iff]
  unfold blockRepresentable
  constructor
  · intro h x hx
    exact ⟨nearestCode (normalizeBy (absmax l) x), nearestCode_mem _,
      (h x hx).symm⟩
  · intro h x hx
    obtain ⟨c, hcmem, hxc⟩ := h x hx
    by_cases hs : absmax l = 0
    · rw [hs, zero_mul] at hxc
      rw [hs, zero_mul]
      exact hxc.symm
    · have hnorm : normalizeBy (absmax l) x = c := by
        unfold normalizeBy
        rw [if_neg hs, hxc, mul_comm, mul_div_assoc, div_self hs, mul_one]
      rw [hnorm, nearestCode_self hcmem, ← hxc]

/-! ### Notebook dataflow (statement-level) -/

/-- One top-level notebook statement: the name it binds (or mutates) and
the global names it reads. -/
structure PyStmt where
  lhs : String
  reads : List String
  deriving DecidableEq

/-- The notebook's top-level statements in source order, each with the
global names it reads: the `login(token="")` call, the
`HF_HUB_ENABLE_HF_TRANSFER` environment toggle, the
`model_name`/`data`/`save_directory` literals, `bnb_config`, `model`,
`tokenizer`, `peft_config`, `dataset`, the two tokenizer mutations
(`pad_token`, `padding_side`), `peft_model`, the chat-template check,
`format_dpo_dataset`, `columns_to_remove`, `processed_dataset`,
`train_dataset`, `dpo_config`, `dpo_trainer`, and the
`dpo_trainer.train()` call. -/
def notebookProgram : List PyStmt :=
  [⟨"", []⟩,
   ⟨"os.environ", []⟩,
   ⟨"model_name", []⟩,
   ⟨"data", []⟩,
   ⟨"save_directory", []⟩,
   ⟨"bnb_config", []⟩,
   ⟨"model", ["model_name", "bnb_config", "save_directory"]⟩,
   ⟨"tokenizer", ["model_name", "save_directory"]⟩,
   ⟨"peft_config", []⟩,
   ⟨"dataset", ["save_directory"]⟩,
   ⟨"tokenizer", ["tokenizer"]⟩,
   ⟨"tokenizer", ["tokenizer"]⟩,
   ⟨"peft_model", ["model", "peft_config"]⟩,
   ⟨"", ["tokenizer"]⟩,
   ⟨"format_dpo_dataset", []⟩,
   ⟨"columns_to_remove", []⟩,
   ⟨"processed_dataset", ["dataset", "format_dpo_dataset", "columns_to_remove"]⟩,
   ⟨"train_dataset", ["processed_dataset"]⟩,
   ⟨"dpo_config", []⟩,
   ⟨"dpo_trainer", ["model", "dpo_config", "train_dataset", "peft_config"]⟩,
   ⟨"", ["dpo_trainer"]⟩]

/-! ### Tokenizer configuration and padding -/

/-- The tokenizer state the notebook configures: pad token id, EOS token
id, and padding side. -/
structure TokenizerState where
  padTokenId : ℕ
  eosTokenId : ℕ
  paddingSide : String
  deriving DecidableEq

/-- The notebook's tokenizer-configuration cell:
`tokenizer.pad_token = tokenizer.eos_token` and
`tokenizer.padding_side = "right"`. -/
def configureTokenizer (t : TokenizerState) : TokenizerState :=
  { t with padTokenId := t.eosTokenId, paddingSide := "right" }

/-- Modelled from the spec: the batch builder's padding step (§4.3) —
with right-sided padding a sequence is extended on the right with the
tokenizer's pad code up to the target length. -/
def padToLength (t : TokenizerState) (len : ℕ) (seq : List ℕ) : List ℕ :=
  seq ++ List.replicate (len - seq.length) t.padTokenId

/-! ### Theorems -/

set_option maxHeartbeats 1600000 in
/-- C1: the notebook's `DPOConfig(...)` argument list is missing the comma
between `per_device_train_batch_size=2` and `gradient_accumulation_steps=4`;
Python's argument-list grammar rejects the malformed list (a `SyntaxError`,
so the cell aborts before `DPOTrainer` is built and zero training steps
start) rather than guessing intent, while the same list with the comma
restored is accepted. -/
theorem c1_malformed_dpoconfig_rejected :
    parseKwargs dpoConfigArgTokens = none ∧
    configCellOutcome dpoConfigArgTokens = Except.error "SyntaxError" ∧
    (∀ stepsIfRun : ℕ, trainingStepsStarted dpoConfigArgTokens stepsIfRun = 0) ∧
    (parseKwargs dpoConfigArgTokensRepaired).isSome = true := by
  refine ⟨rfl, rfl, fun s => rfl, rfl⟩

/-- C3: a model whose attached low-rank adapter has `B = 0` (the state at
adapter initialization) produces output exactly equal to the unadapted
base forward, for every input `x`, every `A`, every adapter scale and
every dropout map. -/
theorem c3_adapter_identity_at_init {m n r : ℕ}
    (W : Matrix (Fin m) (Fin n) ℚ) (A : Matrix (Fin r) (Fin n) ℚ)
    (scale : ℚ) (drop : (Fin n → ℚ) → Fin n → ℚ) (x : Fin n → ℚ) :
    loraForward W A 0 scale drop x = baseForward W x := by
  simp [loraForward, baseForward, Matrix.zero_mulVec]

/-- C2: with the notebook's `ref_model=None` argument, the trainer is
constructed in the tagged `implicitBaseAsReference` mode, and the loss
engine's reference forward is the adapter-disabled forward of the same
policy weights; the mode is fixed at construction, not inferred from a
null check at loss time. -/
theorem c2_ref_model_none_is_tagged_base_mode
    (pb pd : List ℕ → ℕ → ℚ) :
    (mkDPOTrainer pb pd notebookRefModelArg).mode =
      ReferenceMode.implicitBaseAsReference ∧
    ∀ ctx tok,
      referenceScore (mkDPOTrainer pb pd notebookRefModelArg) ctx tok =
        adapterDisabledScore (mkDPOTrainer pb pd notebookRefModelArg) ctx tok :=
  ⟨rfl, fun _ _ => rfl⟩

/-- C4: a backward pass attaches no gradient buffer to the frozen
quantized base weights and attaches one to each adapter matrix, and any
number of optimizer steps leaves the base weights unchanged (only the
adapters are updated). -/
theorem c4_gradient_isolation (rawGrad : ModelParam → List ℚ) (lr : ℚ)
    (grads : ℕ → ModelParam → List ℚ) (n : ℕ) (s : AdapterTrainState) :
    backwardGradBuffer rawGrad ModelParam.baseWeights = none ∧
    (backwardGradBuffer rawGrad ModelParam.adapterA).isSome = true ∧
    (backwardGradBuffer rawGrad ModelParam.adapterB).isSome = true ∧
    (trainRun lr grads n s).baseWeights = s.baseWeights := by
  refine ⟨rfl, rfl, rfl, ?_⟩
  induction n generalizing s with
  | zero => rfl
  | succ k ih =>
      rw [trainRun, ih]
      rfl

/-- C5: for a preference example with `chosen = rejected` and any
`beta > 0`, the policy and reference log-ratios are both zero (so their
difference is zero) and the sigmoid-variant DPO loss equals
`-log(1/2)` (≈ 0.6931), for any policy and reference scorers — in
particular for the untrained adapter at initialization, where policy and
reference coincide. -/
theorem c5_degenerate_example_loss
    (policy ref : List ℕ → ℕ → ℝ) (prompt chosen rejected : List ℕ)
    (beta : ℝ) (hbeta : 0 < beta) (h : chosen = rejected) :
    logratio policy prompt chosen rejected -
      logratio ref prompt chosen rejected = 0 ∧
    dpoSigmoidLoss beta (logratio policy prompt chosen rejected)
      (logratio ref prompt chosen rejected) = -Real.log (1 / 2) := by
  subst h
  have h1 : ∀ sc : List ℕ → ℕ → ℝ, logratio sc prompt chosen chosen = 0 :=
    fun sc => sub_self _
  refine ⟨by rw [h1, h1]; ring, ?_⟩
  rw [h1, h1]
  unfold dpoSigmoidLoss sigmoid
  norm_num [Real.exp_zero, Real.log_inv]

/-- Witness for C5 at a concrete input: scorers constantly zero, empty
prompt and completions, `beta = 1/10` (the notebook's `beta=0.1`). -/
theorem c5_degenerate_example_loss_witness :
    ((0 : ℝ) < 1 / 10 ∧ ([] : List ℕ) = []) ∧
    (logratio (fun _ _ => (0 : ℝ)) [] [] [] -
       logratio (fun _ _ => (0 : ℝ)) [] [] [] = 0 ∧
     dpoSigmoidLoss (1 / 10) (logratio (fun _ _ => (0 : ℝ)) [] [] [])
       (logratio (fun _ _ => (0 : ℝ)) [] [] []) = -Real.log (1 / 2)) :=
  ⟨⟨by norm_num, rfl⟩,
   c5_degenerate_example_loss (fun _ _ => 0) (fun _ _ => 0) [] [] [] (1 / 10)
     (by norm_num) rfl⟩

/-- C6: for fixed `beta > 0` and fixed reference log-ratio, the
sigmoid-variant DPO loss is strictly decreasing in the policy log-ratio:
`p₁ < p₂` gives `loss(p₂) < loss(p₁)`. -/
theorem c6_sigmoid_loss_strictly_decreasing
    (beta r p₁ p₂ : ℝ) (hbeta : 0 < beta) (h : p₁ < p₂) :
    dpoSigmoidLoss beta p₂ r < dpoSigmoidLoss beta p₁ r := by
  have key : ∀ z : ℝ,
      dpoSigmoidLoss beta z r = Real.log (1 + Real.exp (-(beta * (z - r)))) := by
    intro z
    unfold dpoSigmoidLoss sigmoid
    rw [Real.log_inv, neg_neg]
  rw [key, key]
  apply Real.log_lt_log
  · positivity
  · have hmul : beta * (p₁ - r) < beta * (p₂ - r) := by nlinarith
    have := Real.exp_lt_exp.mpr (neg_lt_neg hmul)
    linarith

/-- Witness for C6 at a concrete input: `beta = 1/10`, reference
log-ratio `0`, policy log-ratios `0 < 1`. -/
theorem c6_sigmoid_loss_strictly_decreasing_witness :
    ((0 : ℝ) < 1 / 10 ∧ (0 : ℝ) < 1) ∧
    dpoSigmoidLoss (1 / 10) 1 0 < dpoSigmoidLoss (1 / 10) 0 0 :=
  ⟨⟨by norm_num, by norm_num⟩,
   c6_sigmoid_loss_strictly_decreasing (1 / 10) 0 0 1 (by norm_num) (by norm_num)⟩

/-- C7: a tokenized prompt longer than `max_prompt_len` is truncated
from the start — the retained tokens are exactly the unique
length-`maxP` suffix of the original sequence — and a completion longer
than `max_completion_len` is truncated from the end (a prefix is
retained). -/
theorem c7_truncation_sides (maxP maxC : ℕ) (p c : List ℕ)
    (hp : maxP < p.length) (hc : maxC < c.length) :
    (truncatePromptToks maxP p).length = maxP ∧
    truncatePromptToks maxP p <:+ p ∧
    (∀ s : List ℕ, s <:+ p → s.length = maxP → s = truncatePromptToks maxP p) ∧
    (truncateCompletionToks maxC c).length = maxC ∧
    truncateCompletionToks maxC c <+: c := by
  refine ⟨?_, ?_, ?_, ?_, ?_⟩
  · simp only [truncatePromptToks, List.length_drop]
    omega
  · exact List.drop_suffix _ _
  · rintro s ⟨t, rfl⟩ hs
    unfold truncatePromptToks
    rw [List.length_append, hs]
    have hlen : t.length + maxP - maxP = t.length := by omega
    rw [hlen, List.drop_left]
  · simp only [truncateCompletionToks, List.length_take]
    omega
  · exact List.take_prefix _ _

/-- Witness for C7 at a concrete input: prompt `[0,1,2]` with bound 2,
completion `[3,4]` with bound 1. -/
theorem c7_truncation_sides_witness :
    (2 < [0, 1, 2].length ∧ 1 < [3, 4].length) ∧
    ((truncatePromptToks 2 [0, 1, 2]).length = 2 ∧
     truncatePromptToks 2 [0, 1, 2] <:+ [0, 1, 2] ∧
     (∀ s : List ℕ, s <:+ [0, 1, 2] → s.length = 2 →
        s = truncatePromptToks 2 [0, 1, 2]) ∧
     (truncateCompletionToks 1 [3, 4]).length = 1 ∧
     truncateCompletionToks 1 [3, 4] <+: [3, 4]) :=
  ⟨⟨by decide, by decide⟩,
   c7_truncation_sides 2 1 [0, 1, 2] [3, 4] (by decide) (by decide)⟩

/-- C8 counterexample: the claim "the round-trip error is bounded by a
value depending only on block_size and the codebook (not on T's
magnitude)" is false for absmax block quantization — at block size 64 no
single bound covers all tensors, because scaling a tensor scales its
round-trip error: the two-element tensors `[M, 0.86·M]` have error
`(0.86 − 0.7229568362236023)·M`, unbounded in `M`. -/
theorem c8_counterexample_no_magnitude_free_bound :
    ¬ ∃ bound : ℚ, ∀ T : List ℚ, errInf T (roundTrip 64 T) ≤ bound := by
  rintro ⟨c, hc⟩
  set d : ℚ := 86 / 100 - 7229568362236023 / 10000000000000000 with hd
  have hdpos : 0 < d := by rw [hd]; norm_num
  set M : ℚ := (|c| + 1) / d with hM
  have hMpos : 0 < M := div_pos (by positivity) hdpos
  have hMd : M * d = |c| + 1 := by
    rw [hM, div_mul_cancel₀ _ hdpos.ne']
  have hMdpos : 0 < M * d := mul_pos hMpos hdpos
  have hchunk : chunkAux 63 [M, 86 / 100 * M] = [[M, 86 / 100 * M]] := by
    rw [show (63 : ℕ) = 62 + 1 from rfl]
    simp [chunkAux_cons, chunkAux_nil]
  have hbpos : (0 : ℚ) < 86 / 100 * M :=
    mul_pos (by norm_num) hMpos
  have habs : absmax [M, 86 / 100 * M] = M := by
    have h0 : absmax [M, 86 / 100 * M] = max |M| (max |86 / 100 * M| 0) := rfl
    rw [h0, abs_of_pos hMpos, abs_of_pos hbpos,
      max_eq_left (le_of_lt hbpos), max_eq_left (by linarith)]
  have hn1 : normalizeBy M M = 1 := by
    unfold normalizeBy
    rw [if_neg hMpos.ne', div_self hMpos.ne']
  have hn2 : normalizeBy M (86 / 100 * M) = 86 / 100 := by
    unfold normalizeBy
    rw [if_neg hMpos.ne', mul_div_assoc, div_self hMpos.ne', mul_one]
  have hcode1 : nearestCode 1 = 1 := by
    norm_num [nearestCode, nf4Codebook, abs]
  have hcode2 : nearestCode (86 / 100) =
      7229568362236023 / 10000000000000000 := by
    norm_num [nearestCode, nf4Codebook, abs]
  have hq : quantizeBlock [M, 86 / 100 * M] =
      (M, [1, 7229568362236023 / 10000000000000000]) := by
    simp only [quantizeBlock, habs, List.map_cons, List.map_nil]
    rw [hn1, hn2, hcode1, hcode2]
  have hrt : roundTrip 64 [M, 86 / 100 * M] =
      [M, M * (7229568362236023 / 10000000000000000)] := by
    unfold roundTrip quantize dequantize
    rw [show (64 : ℕ) - 1 = 63 from rfl, hchunk, List.map_cons, List.map_nil,
      hq, List.map_cons, List.map_nil]
    simp [dequantizeBlock]
  have herr : errInf [M, 86 / 100 * M] (roundTrip 64 [M, 86 / 100 * M]) =
      M * d := by
    rw [hrt]
    have h0 : errInf [M, 86 / 100 * M]
        [M, M * (7229568362236023 / 10000000000000000)] =
        max |M - M|
          (max |86 / 100 * M - M * (7229568362236023 / 10000000000000000)| 0) :=
      rfl
    have e2 : 86 / 100 * M - M * (7229568362236023 / 10000000000000000) =
        M * d := by
      rw [hd]; ring
    rw [h0, sub_self, abs_zero, e2, abs_of_pos hMdpos,
      max_eq_left (le_of_lt hMdpos)]
    exact max_eq_right (le_of_lt hMdpos)
  have hfin := hc [M, 86 / 100 * M]
  rw [herr, hMd] at hfin
  have := le_abs_self c
  linarith

/-- C8 amended: for absmax block quantization into the NF4 codebook the
round-trip error scales with the tensor's magnitude — it is bounded by
`absmax T` times a constant depending only on the codebook (1/2
suffices), for every block size; and per quantization block the error is
zero exactly when the block is representable by the codebook at its own
scale. -/
theorem c8_amended_error_scales_with_absmax :
    (∀ (blockSize : ℕ) (T : List ℚ),
        errInf T (roundTrip blockSize T) ≤ absmax T * (1 / 2)) ∧
    (∀ l : List ℚ,
        errInf l (dequantizeBlock (quantizeBlock l)) = 0 ↔
          blockRepresentable l) := by
  constructor
  · intro bs T
    have h := chunk_err_aux (bs - 1) (absmax T) T.length T (le_refl _) (le_refl _)
    have hc : 0 ≤ absmax T * (1 / 2) :=
      mul_nonneg (absmax_nonneg T) (by norm_num)
    exact errInf_le_of_forall₂ hc h
  · exact block_zero_iff

/-- C9: the notebook constructs `DPOTrainer` from the original quantized
`model` together with `peft_config` (adapter attachment is the
trainer's own, cf. `mkDPOTrainer`), and the `peft_model` binding made by
`get_peft_model` is read by no later statement — the earlier wrapping is
dead dataflow. -/
theorem c9_peft_model_binding_dead :
    notebookProgram.get? 12 = some ⟨"peft_model", ["model", "peft_config"]⟩ ∧
    notebookProgram.get? 19 =
      some ⟨"dpo_trainer", ["model", "dpo_config", "train_dataset", "peft_config"]⟩ ∧
    ((notebookProgram.drop 13).all
      (fun s => !(s.reads.contains "peft_model"))) = true := by
  refine ⟨rfl, rfl, ?_⟩
  decide

/-- C10: after the notebook's tokenizer configuration the pad token id
equals the EOS token id and the padding side is `"right"`, so in a built
batch every padded position (an index past the sequence, below the
target length) carries the EOS token id; no later notebook statement
mutates the tokenizer, so the aliasing holds for the whole run. -/
theorem c10_pad_token_is_eos (t : TokenizerState) (len : ℕ) (seq : List ℕ)
    (i : ℕ) (h1 : seq.length ≤ i) (h2 : i < len) :
    (configureTokenizer t).padTokenId = t.eosTokenId ∧
    (configureTokenizer t).paddingSide = "right" ∧
    (padToLength (configureTokenizer t) len seq).get? i = some t.eosTokenId ∧
    ((notebookProgram.drop 12).all (fun s => !(s.lhs == "tokenizer"))) = true := by
  refine ⟨rfl, rfl, ?_, by decide⟩
  show (seq ++ List.replicate (len - seq.length) t.eosTokenId).get? i =
    some t.eosTokenId
  rw [List.get?_eq_getElem?, List.getElem?_append_right h1,
    List.getElem?_replicate]
  rw [if_pos (by omega)]

/-- Witness for C10 at a concrete input: tokenizer with pad id 0 and EOS
id 7, sequence `[5,6]` padded to length 4, inspected at position 3. -/
theorem c10_pad_token_is_eos_witness :
    ([5, 6].length ≤ 3 ∧ 3 < 4) ∧
    ((configureTokenizer ⟨0, 7, "left"⟩).padTokenId = 7 ∧
     (configureTokenizer ⟨0, 7, "left"⟩).paddingSide = "right" ∧
     (padToLength (configureTokenizer ⟨0, 7, "left"⟩) 4 [5, 6]).get? 3 =
       some 7 ∧
     ((notebookProgram.drop 12).all (fun s => !(s.lhs == "tokenizer"))) = true) :=
  ⟨⟨by decide, by decide⟩,
   c10_pad_token_is_eos ⟨0, 7, "left"⟩ 4 [5, 6] 3 (by decide) (by decide)⟩

end DPONotebook
